import Mathlib

/-!
# Verification of the hugoify-bluesky-rss-feed transformer

Shallow embedding of `cmd/blueskyrss/main.go`: the RSS data model
(structs `rss`, `channel`, `item`, `guid`), the pubDate rewrite performed
by `main`'s loop (Go `time.Parse` with layout `"02 Jan 2006 15:04 -0700"`
followed by `time.Format` with layout `"2006-01-02T15:04:05-07:00"`),
the XML schema mapping at the element-tree level, and the straight-line
control flow of `main` with its observable effects (log message, network
call, file creation).
-/

namespace BlueskyRss

/-! ## Characters and digits (Go `isDigit`, `getnum`, `atoi` on fixed widths) -/

/-- Go's `isDigit`: the character is one of `'0'..'9'`. -/
def isDigitCh (c : Char) : Bool := 48 ≤ c.toNat && c.toNat ≤ 57

/-- Numeric value of a digit character. -/
def charVal (c : Char) : Nat := c.toNat - 48

/-- Decimal digit to character, as Go's `appendInt` produces (`'0' + d`). -/
def dchar : Nat → Char
  | 0 => '0' | 1 => '1' | 2 => '2' | 3 => '3' | 4 => '4'
  | 5 => '5' | 6 => '6' | 7 => '7' | 8 => '8' | _ => '9'

/-- Decimal digits, most significant first, with an explicit recursion budget
(the budget only needs to exceed the digit count). -/
def natToCharsAux : Nat → Nat → List Char
  | 0, _ => []
  | fuel + 1, n =>
    if n < 10 then [dchar n]
    else natToCharsAux fuel (n / 10) ++ [dchar (n % 10)]

/-- Decimal digits of `n`, most significant first (Go `appendInt` without padding). -/
def natToChars (n : Nat) : List Char := natToCharsAux (n + 1) n

/-- Go's `appendInt(b, n, w)`: decimal digits of `n` zero-padded on the left to
at least width `w` (wider numbers are printed in full). -/
def appendIntGo (w n : Nat) : List Char :=
  List.replicate (w - (natToChars n).length) '0' ++ natToChars n

/-- Go's `getnum(s, true)`: exactly two digit characters. -/
def getnum2 : List Char → Option (Nat × List Char)
  | c0 :: c1 :: rest =>
    if isDigitCh c0 && isDigitCh c1 then some (charVal c0 * 10 + charVal c1, rest)
    else none
  | _ => none

/-- Go's `getnum(s, false)`: one digit, or two when the second character is a digit. -/
def getnum12 : List Char → Option (Nat × List Char)
  | c0 :: c1 :: rest =>
    if isDigitCh c0 then
      if isDigitCh c1 then some (charVal c0 * 10 + charVal c1, rest)
      else some (charVal c0, c1 :: rest)
    else none
  | [c0] => if isDigitCh c0 then some (charVal c0, []) else none
  | [] => none

/-- A literal layout character must match the input exactly. -/
def expectChar (c : Char) : List Char → Option (List Char)
  | x :: rest => if x = c then some rest else none
  | [] => none

/-- A space in the layout (Go `skip` with `cutspace`): matches vacuously at
end of input, otherwise requires the next character to be a space and then
consumes the whole run of spaces. -/
def skipSpace : List Char → Option (List Char)
  | [] => some []
  | c :: rest =>
    if c = ' ' then some (rest.dropWhile (fun x => x == ' ')) else none

/-- Go `stdLongYear` (`"2006"`): four digit characters read as a number. -/
def getYear4 : List Char → Option (Nat × List Char)
  | a :: b :: c :: d :: rest =>
    if isDigitCh a && isDigitCh b && isDigitCh c && isDigitCh d then
      some (charVal a * 1000 + charVal b * 100 + charVal c * 10 + charVal d, rest)
    else none
  | _ => none

/-! ## Month lookup (Go `lookup` over `shortMonthNames`, case-insensitive) -/

/-- Go's `match`: equal bytes, or equal after OR-ing with `0x20` when the result
is a lowercase ASCII letter. -/
def chMatch (a b : Char) : Bool :=
  a == b ||
    (let a' := Char.ofNat (a.toNat ||| 32)
     let b' := Char.ofNat (b.toNat ||| 32)
     a' == b' && 97 ≤ a'.toNat && a'.toNat ≤ 122)

/-- Case-insensitive prefix match of a month name against the input. -/
def matchName : List Char → List Char → Option (List Char)
  | [], cs => some cs
  | _ :: _, [] => none
  | p :: ps, c :: cs => if chMatch c p then matchName ps cs else none

def shortMonthNames : List (List Char) :=
  [['J','a','n'], ['F','e','b'], ['M','a','r'], ['A','p','r'],
   ['M','a','y'], ['J','u','n'], ['J','u','l'], ['A','u','g'],
   ['S','e','p'], ['O','c','t'], ['N','o','v'], ['D','e','c']]

/-- Try each month name in table order; the value is the 1-based index. -/
def lookupMonthAux : Nat → List (List Char) → List Char → Option (Nat × List Char)
  | _, [], _ => none
  | i, name :: names, cs =>
    match matchName name cs with
    | some rest => some (i, rest)
    | none => lookupMonthAux (i + 1) names cs

/-- Go `stdMonth` (`"Jan"`): look the month abbreviation up in the table. -/
def lookupMonth (cs : List Char) : Option (Nat × List Char) :=
  lookupMonthAux 1 shortMonthNames cs

/-! ## Time zone offsets -/

/-- Go `stdNumTZ` (`"-0700"`): a sign and four digits; the hour part may be at
most 24 and the minute part at most 60 (Go's deliberate `>` range tests). The
result is the signed offset in minutes. -/
def getNumTZ : List Char → Option (Int × List Char)
  | s :: h1 :: h2 :: m1 :: m2 :: rest =>
    if isDigitCh h1 && isDigitCh h2 && isDigitCh m1 && isDigitCh m2 then
      let hr := charVal h1 * 10 + charVal h2
      let mm := charVal m1 * 10 + charVal m2
      if hr > 24 ∨ mm > 60 then none
      else if s = '+' then some ((hr * 60 + mm : Nat), rest)
      else if s = '-' then some (-(hr * 60 + mm : Nat), rest)
      else none
    else none
  | _ => none

/-- Go `stdNumColonTZ` (`"-07:00"`): like `getNumTZ` but with a mandatory colon
between the hour and minute parts (Go checks `value[3] == ':'`). -/
def getColonTZ : List Char → Option (Int × List Char)
  | s :: h1 :: h2 :: col :: m1 :: m2 :: rest =>
    if col = ':' then
      if isDigitCh h1 && isDigitCh h2 && isDigitCh m1 && isDigitCh m2 then
        let hr := charVal h1 * 10 + charVal h2
        let mm := charVal m1 * 10 + charVal m2
        if hr > 24 ∨ mm > 60 then none
        else if s = '+' then some ((hr * 60 + mm : Nat), rest)
        else if s = '-' then some (-(hr * 60 + mm : Nat), rest)
        else none
      else none
    else none
  | _ => none

/-! ## Calendar arithmetic (Go `isLeap`, `daysIn`) -/

def isLeap (y : Nat) : Bool := y % 4 == 0 && (y % 100 != 0 || y % 400 == 0)

/-- Days in a month (month is 1-based; only meaningful for 1..12). -/
def daysIn (month year : Nat) : Nat :=
  if month = 2 then (if isLeap year then 29 else 28)
  else if month = 4 ∨ month = 6 ∨ month = 9 ∨ month = 11 then 30
  else 31

/-! ## The broken-down time produced by `time.Parse` -/

/-- The components `time.Parse` extracts for the layouts used here: a civil
date-time plus a fixed zone offset in minutes. The source layout has no
seconds field, so parsing it always yields `second = 0`. -/
structure DateTime where
  year : Nat
  month : Nat
  day : Nat
  hour : Nat
  minute : Nat
  second : Nat
  offMin : Int
deriving DecidableEq, Repr

/-- Final range validation shared by Go's `Parse`: hour below 24, minute below
60, second below 60, and the day valid for the month and year. -/
def validRanges (dt : DateTime) : Bool :=
  dt.hour < 24 && dt.minute < 60 && dt.second < 60 &&
    1 ≤ dt.day && dt.day ≤ daysIn dt.month dt.year

/-- `time.Parse("02 Jan 2006 15:04 -0700", ·)` on the character list of the
input: fixed two-digit day, space run, month abbreviation, space run,
four-digit year, space run, one-or-two-digit hour, colon, two-digit minute,
space run, signed four-digit numeric zone, end of input, then range checks. -/
def parseSource (cs : List Char) : Option DateTime :=
  match getnum2 cs with
  | none => none
  | some (day, cs) =>
  match skipSpace cs with
  | none => none
  | some cs =>
  match lookupMonth cs with
  | none => none
  | some (month, cs) =>
  match skipSpace cs with
  | none => none
  | some cs =>
  match getYear4 cs with
  | none => none
  | some (year, cs) =>
  match skipSpace cs with
  | none => none
  | some cs =>
  match getnum12 cs with
  | none => none
  | some (hour, cs) =>
  match expectChar ':' cs with
  | none => none
  | some cs =>
  match getnum2 cs with
  | none => none
  | some (minute, cs) =>
  match skipSpace cs with
  | none => none
  | some cs =>
  match getNumTZ cs with
  | none => none
  | some (off, cs) =>
  match cs with
  | _ :: _ => none
  | [] =>
    let dt : DateTime := ⟨year, month, day, hour, minute, 0, off⟩
    if validRanges dt then some dt else none

/-- `time.Parse("2006-01-02T15:04:05-07:00", ·)` on the character list of the
input: four-digit year, dashes, two-digit month and day, literal `T`,
one-or-two-digit hour, colons, two-digit minute and second, signed colon
zone, end of input, then the numeric month range check and range checks. -/
def parseTarget (cs : List Char) : Option DateTime :=
  match getYear4 cs with
  | none => none
  | some (year, cs) =>
  match expectChar '-' cs with
  | none => none
  | some cs =>
  match getnum2 cs with
  | none => none
  | some (month, cs) =>
  match expectChar '-' cs with
  | none => none
  | some cs =>
  match getnum2 cs with
  | none => none
  | some (day, cs) =>
  match expectChar 'T' cs with
  | none => none
  | some cs =>
  match getnum12 cs with
  | none => none
  | some (hour, cs) =>
  match expectChar ':' cs with
  | none => none
  | some cs =>
  match getnum2 cs with
  | none => none
  | some (minute, cs) =>
  match expectChar ':' cs with
  | none => none
  | some cs =>
  match getnum2 cs with
  | none => none
  | some (second, cs) =>
  match getColonTZ cs with
  | none => none
  | some (off, cs) =>
  match cs with
  | _ :: _ => none
  | [] =>
    if month = 0 ∨ 12 < month then none
    else
      let dt : DateTime := ⟨year, month, day, hour, minute, second, off⟩
      if validRanges dt then some dt else none

/-! ## Formatting (Go `Format` with layout `"2006-01-02T15:04:05-07:00"`) -/

/-- Go's zone formatting for `stdNumColonTZ`: sign of the offset, then the
absolute hour and minute components zero-padded to two digits each. -/
def tzChars (off : Int) : List Char :=
  (if off < 0 then '-' else '+') ::
    (appendIntGo 2 (off.natAbs / 60) ++ ':' :: appendIntGo 2 (off.natAbs % 60))

/-- `Format("2006-01-02T15:04:05-07:00")` applied to the parsed components. -/
def formatTarget (dt : DateTime) : List Char :=
  appendIntGo 4 dt.year ++ '-' ::
    (appendIntGo 2 dt.month ++ '-' ::
      (appendIntGo 2 dt.day ++ 'T' ::
        (appendIntGo 2 dt.hour ++ ':' ::
          (appendIntGo 2 dt.minute ++ ':' ::
            (appendIntGo 2 dt.second ++ tzChars dt.offMin)))))

/-- The pubDate rewrite from `main`'s loop on one string: parse under the
source layout, reformat under the target layout. `none` models the
`log.Fatalf` path. -/
def transformPubDate (s : String) : Option String :=
  (parseSource s.toList).map fun dt => String.mk (formatTarget dt)

/-- UTC-equivalent instant denoted by a parsed date-time, in seconds:
civil days from the epoch, plus the time of day, minus the zone offset. -/
def daysFromCivil (y m d : Nat) : Int :=
  let y' : Int := (y : Int) - (if m ≤ 2 then 1 else 0)
  let era : Int := (if 0 ≤ y' then y' else y' - 399) / 400
  let yoe : Int := y' - era * 400
  let m' : Int := (m : Int)
  let doy : Int := (153 * (m' + (if m' > 2 then -3 else 9)) + 2) / 5 + (d : Int) - 1
  let doe : Int := yoe * 365 + yoe / 4 - yoe / 100 + doy
  era * 146097 + doe - 719468

def toInstant (dt : DateTime) : Int :=
  daysFromCivil dt.year dt.month dt.day * 86400 +
    dt.hour * 3600 + dt.minute * 60 + dt.second - dt.offMin * 60

/-! ## The RSS data model (structs `rss`, `channel`, `item`, `guid`) -/

structure Guid where
  isPermaLink : String
  value : String
deriving DecidableEq, Repr

structure Item where
  link : String
  description : String
  pubDate : String
  guid : Guid
deriving DecidableEq, Repr

structure Channel where
  description : String
  link : String
  title : String
  items : List Item
deriving DecidableEq, Repr

structure Rss where
  version : String
  channel : Channel
deriving DecidableEq, Repr

/-! ## XML at the element-tree level

The byte-level tokenizer, entity escaping and indentation belong to Go's
`encoding/xml`; the repository's contribution is the field/tag mapping on the
four structs above. That mapping is embedded here on parsed element trees:
an element with a name, attributes and children (sub-elements or character
data). -/

inductive Node where
  | elem (name : String) (attrs : List (String × String)) (children : List Node)
  | text (s : String)

/-- Character data directly inside an element, concatenated; nested elements
are skipped, as Go's `Unmarshal` does (`d.Skip()`) when filling a string
field. -/
def textContent (children : List Node) : String :=
  children.foldl (fun acc n => match n with | .text s => acc ++ s | .elem _ _ _ => acc) ""

/-- Last value of a named attribute, if present: Go assigns each matching
attribute in order, so a later one wins. -/
def lookupAttr (name : String) (attrs : List (String × String)) : Option String :=
  attrs.foldl (fun acc p => if p.1 = name then some p.2 else acc) none

/-- Unmarshalling a `<guid>` element into an existing `guid` value:
`isPermaLink` is overwritten only when the attribute is present; the
character data always overwrites the value. -/
def decodeGuidInto (g : Guid) : Node → Guid
  | .elem _ attrs children =>
    { isPermaLink := (lookupAttr "isPermaLink" attrs).getD g.isPermaLink
      value := textContent children }
  | .text _ => g

/-- Unmarshalling the children of an `<item>` element: each recognized child
element overwrites the matching field; unknown elements and character data
are ignored. -/
def decodeItemInto (it : Item) : List Node → Item
  | [] => it
  | .text _ :: rest => decodeItemInto it rest
  | (.elem name attrs children) :: rest =>
    if name = "link" then decodeItemInto { it with link := textContent children } rest
    else if name = "description" then
      decodeItemInto { it with description := textContent children } rest
    else if name = "pubDate" then
      decodeItemInto { it with pubDate := textContent children } rest
    else if name = "guid" then
      decodeItemInto { it with guid := decodeGuidInto it.guid (.elem name attrs children) } rest
    else decodeItemInto it rest

def emptyGuid : Guid := ⟨"", ""⟩
def emptyItem : Item := ⟨"", "", "", emptyGuid⟩

/-- Unmarshalling the children of a `<channel>` element: string fields
overwrite, each `<item>` appends a freshly decoded item to the slice. -/
def decodeChannelInto (ch : Channel) : List Node → Channel
  | [] => ch
  | .text _ :: rest => decodeChannelInto ch rest
  | (.elem name _ children) :: rest =>
    if name = "description" then
      decodeChannelInto { ch with description := textContent children } rest
    else if name = "link" then decodeChannelInto { ch with link := textContent children } rest
    else if name = "title" then decodeChannelInto { ch with title := textContent children } rest
    else if name = "item" then
      decodeChannelInto { ch with items := ch.items ++ [decodeItemInto emptyItem children] } rest
    else decodeChannelInto ch rest

def emptyChannel : Channel := ⟨"", "", "", []⟩

/-- `Decode` into the `rss` struct: the root element must be named `rss`
(the `XMLName xml.Name` field), the `version` attribute fills `Version`,
and each `<channel>` child is unmarshalled into the channel field. -/
def decodeRss : Node → Option Rss
  | .text _ => none
  | .elem name attrs children =>
    if name = "rss" then
      some
        { version := (lookupAttr "version" attrs).getD ""
          channel :=
            children.foldl
              (fun ch n =>
                match n with
                | .elem cname _ cchildren =>
                  if cname = "channel" then decodeChannelInto ch cchildren else ch
                | .text _ => ch)
              emptyChannel }
    else none

/-- `Marshal` of one item, emitting the fields in struct order. -/
def encodeItem (it : Item) : Node :=
  .elem "item" []
    [.elem "link" [] [.text it.link],
     .elem "description" [] [.text it.description],
     .elem "pubDate" [] [.text it.pubDate],
     .elem "guid" [("isPermaLink", it.guid.isPermaLink)] [.text it.guid.value]]

/-- `Marshal` of the whole feed: `<rss version=…><channel>…</channel></rss>`
with the channel's fields in struct order followed by the items in order. -/
def encodeRss (r : Rss) : Node :=
  .elem "rss" [("version", r.version)]
    [.elem "channel" []
      (.elem "description" [] [.text r.channel.description] ::
       .elem "link" [] [.text r.channel.link] ::
       .elem "title" [] [.text r.channel.title] ::
       r.channel.items.map encodeItem)]

/-! ## The transformation loop of `main` -/

/-- The body of `main`'s loop on one item, with the error message of the
`log.Fatalf` call; Go's `ParseError` text names the offending value, which
the model carries verbatim. -/
def transformItem (it : Item) : Except String Item :=
  match parseSource it.pubDate.toList with
  | none => .error ("Failed to parse the pubDate field: " ++ it.pubDate)
  | some dt => .ok { it with pubDate := String.mk (formatTarget dt) }

/-- `main`'s loop over the items: fail fast on the first malformed pubDate,
otherwise rewrite every item in sequence order. -/
def transformItems : List Item → Except String (List Item)
  | [] => .ok []
  | it :: rest =>
    match transformItem it with
    | .error e => .error e
    | .ok it' =>
      match transformItems rest with
      | .error e => .error e
      | .ok rest' => .ok (it' :: rest')

def transformFeed (r : Rss) : Except String Rss :=
  match transformItems r.channel.items with
  | .error e => .error e
  | .ok its => .ok { r with channel := { r.channel with items := its } }

/-- Total per-item rewrite used to describe the success path: on the success
path of `transformItems` every parse succeeded, so the fallback branch is
never reached. -/
def transformItemD (it : Item) : Item :=
  match parseSource it.pubDate.toList with
  | none => it
  | some dt => { it with pubDate := String.mk (formatTarget dt) }

/-! ## The control flow of `main` with observable effects -/

/-- The process environment: the two `os.LookupEnv` reads. -/
structure Env where
  url : Option String
  path : Option String

/-- An HTTP response: status code, and the body as a parsed element tree
(`none` models a body that is not well-formed XML). -/
structure HttpResp where
  status : Nat
  body : Option Node

/-- Observable outcome of one run: whether the process reached the end of
`main` (exit code 0), the `log.Fatal` message if any, whether `http.Get` was
invoked, and the re-encoded tree written by `os.Create`/`Encode` if a file
was created. -/
structure Outcome where
  exitOk : Bool
  logMsg : Option String
  networkCalled : Bool
  fileWritten : Option Node

/-- Straight-line embedding of `main`: env reads, GET, status check, decode,
transform loop, file creation (`createOk` models whether `os.Create`
succeeds), encode. Each `log.Fatal*` becomes a terminal `Outcome` with
`exitOk = false`. -/
def runMain (env : Env) (net : String → Except String HttpResp) (createOk : Bool) : Outcome :=
  match env.url with
  | none => ⟨false, some "The url input is required.", false, none⟩
  | some url =>
  match env.path with
  | none => ⟨false, some "The path input is required.", false, none⟩
  | some _path =>
  match net url with
  | .error e => ⟨false, some ("Failed to download the RSS feed: " ++ e), true, none⟩
  | .ok resp =>
  if resp.status ≠ 200 then
    ⟨false, some ("Failed to download RSS feed. Status code: " ++ toString resp.status),
      true, none⟩
  else
  match resp.body with
  | none => ⟨false, some "Failed to parse the RSS feed.", true, none⟩
  | some t =>
  match decodeRss t with
  | none => ⟨false, some "Failed to parse the RSS feed.", true, none⟩
  | some r =>
  match transformFeed r with
  | .error e => ⟨false, some e, true, none⟩
  | .ok r' =>
  if createOk then ⟨true, none, true, some (encodeRss r')⟩
  else ⟨false, some "Failed to create the file.", true, none⟩

/-! ## Concrete fixtures used to instantiate the general theorems -/

def sampleItem : Item :=
  ⟨"https://example.com/p1", "hello world", "02 Jan 2025 09:15 +0000", ⟨"true", "g1"⟩⟩

def sampleFeed : Rss :=
  ⟨"2.0", ⟨"chan desc", "https://example.com", "chan title", [sampleItem]⟩⟩

def sampleItemOut : Item :=
  ⟨"https://example.com/p1", "hello world", "2025-01-02T09:15:00+00:00", ⟨"true", "g1"⟩⟩

def sampleFeedOut : Rss :=
  ⟨"2.0", ⟨"chan desc", "https://example.com", "chan title", [sampleItemOut]⟩⟩

def badItem : Item := ⟨"https://example.com/p2", "body", "oops", ⟨"false", "g2"⟩⟩

def badFeed : Rss :=
  ⟨"2.0", ⟨"chan desc", "https://example.com", "chan title", [badItem]⟩⟩

/-! ## Digit and padding lemmas -/

theorem dchar_isDigit {d : Nat} (h : d < 10) : isDigitCh (dchar d) = true := by
  interval_cases d <;> decide

theorem charVal_dchar {d : Nat} (h : d < 10) : charVal (dchar d) = d := by
  interval_cases d <;> decide

theorem dchar_toNat {d : Nat} (h : d < 10) : 48 ≤ (dchar d).toNat ∧ (dchar d).toNat ≤ 57 := by
  interval_cases d <;> decide

theorem natToCharsAux_congr :
    ∀ (n f1 f2 : Nat), n < f1 → n < f2 → natToCharsAux f1 n = natToCharsAux f2 n := by
  intro n
  induction n using Nat.strong_induction_on with
  | _ n ih =>
    intro f1 f2 h1 h2
    match f1, h1 with
    | g1 + 1, _ =>
    match f2, h2 with
    | g2 + 1, _ =>
    by_cases h10 : n < 10
    · simp [natToCharsAux, h10]
    · have hlt : n / 10 < n := Nat.div_lt_self (by omega) (by omega)
      simp only [natToCharsAux, h10, if_false]
      rw [ih (n / 10) hlt g1 g2 (by omega) (by omega)]

theorem natToChars_lt10 {n : Nat} (h : n < 10) : natToChars n = [dchar n] := by
  unfold natToChars natToCharsAux
  simp [h]

theorem natToChars_ge10 {n : Nat} (h : 10 ≤ n) :
    natToChars n = natToChars (n / 10) ++ [dchar (n % 10)] := by
  unfold natToChars
  have hlt : n / 10 < n := Nat.div_lt_self (by omega) (by omega)
  have hcongr := natToCharsAux_congr (n / 10) n (n / 10 + 1) (by omega) (by omega)
  calc natToCharsAux (n + 1) n = natToCharsAux n (n / 10) ++ [dchar (n % 10)] := by
        simp [natToCharsAux, Nat.not_lt_of_le h]
    _ = natToCharsAux (n / 10 + 1) (n / 10) ++ [dchar (n % 10)] := by rw [hcongr]

theorem appendIntGo_two {n : Nat} (h : n < 100) :
    appendIntGo 2 n = [dchar (n / 10), dchar (n % 10)] := by
  by_cases h10 : n < 10
  · have h0 : n / 10 = 0 := Nat.div_eq_of_lt h10
    have hm : n % 10 = n := Nat.mod_eq_of_lt h10
    rw [appendIntGo, natToChars_lt10 h10, h0, hm]
    rfl
  · have hge : 10 ≤ n := Nat.le_of_not_lt h10
    have hq : n / 10 < 10 := by omega
    rw [appendIntGo, natToChars_ge10 hge, natToChars_lt10 hq]
    rfl

theorem appendIntGo_four {n : Nat} (h : n < 10000) :
    appendIntGo 4 n =
      [dchar (n / 1000), dchar (n / 100 % 10), dchar (n / 10 % 10), dchar (n % 10)] := by
  by_cases h10 : n < 10
  · have e1 : n / 1000 = 0 := Nat.div_eq_of_lt (by omega)
    have e2 : n / 100 = 0 := Nat.div_eq_of_lt (by omega)
    have e3 : n / 10 = 0 := Nat.div_eq_of_lt (by omega)
    have e4 : n % 10 = n := Nat.mod_eq_of_lt h10
    rw [appendIntGo, natToChars_lt10 h10, e1, e2, e3, e4]
    rfl
  · by_cases h100 : n < 100
    · have e1 : n / 1000 = 0 := Nat.div_eq_of_lt (by omega)
      have e2 : n / 100 = 0 := Nat.div_eq_of_lt (by omega)
      have hq : n / 10 < 10 := by omega
      have e3 : n / 10 % 10 = n / 10 := Nat.mod_eq_of_lt hq
      rw [appendIntGo, natToChars_ge10 (by omega), natToChars_lt10 hq, e1, e2, e3]
      rfl
    · by_cases h1000 : n < 1000
      · have e1 : n / 1000 = 0 := Nat.div_eq_of_lt (by omega)
        have hq : n / 100 < 10 := by omega
        have e2 : n / 100 % 10 = n / 100 := Nat.mod_eq_of_lt hq
        have e3 : n / 10 / 10 = n / 100 := by omega
        rw [appendIntGo, natToChars_ge10 (by omega), natToChars_ge10 (by omega),
          natToChars_lt10 (by omega : n / 10 / 10 < 10), e3, e1, e2]
        rfl
      · have hq : n / 1000 < 10 := by omega
        have e3 : n / 10 / 10 = n / 100 := by omega
        have e4 : n / 100 / 10 = n / 1000 := by omega
        rw [appendIntGo, natToChars_ge10 (by omega), natToChars_ge10 (by omega), e3,
          natToChars_ge10 (by omega : 10 ≤ n / 100), e4, natToChars_lt10 hq]
        rfl

/-! ## Parser component lemmas -/

theorem expectChar_cons (c : Char) (rest : List Char) :
    expectChar c (c :: rest) = some rest := by
  simp [expectChar]

theorem getnum2_append {n : Nat} (h : n < 100) (rest : List Char) :
    getnum2 (appendIntGo 2 n ++ rest) = some (n, rest) := by
  have hq : n / 10 < 10 := by omega
  have hm : n % 10 < 10 := by omega
  rw [appendIntGo_two h]
  simp only [List.cons_append, List.nil_append, getnum2, dchar_isDigit hq, dchar_isDigit hm,
    Bool.and_self, if_true, charVal_dchar hq, charVal_dchar hm]
  congr 1
  congr 1
  omega

theorem getnum12_append {n : Nat} (h : n < 100) (rest : List Char) :
    getnum12 (appendIntGo 2 n ++ rest) = some (n, rest) := by
  have hq : n / 10 < 10 := by omega
  have hm : n % 10 < 10 := by omega
  rw [appendIntGo_two h]
  simp only [List.cons_append, List.nil_append, getnum12, dchar_isDigit hq, dchar_isDigit hm,
    if_true, charVal_dchar hq, charVal_dchar hm]
  congr 1
  congr 1
  omega

theorem getYear4_append {n : Nat} (h : n < 10000) (rest : List Char) :
    getYear4 (appendIntGo 4 n ++ rest) = some (n, rest) := by
  have h1 : n / 1000 < 10 := by omega
  have h2 : n / 100 % 10 < 10 := by omega
  have h3 : n / 10 % 10 < 10 := by omega
  have h4 : n % 10 < 10 := by omega
  rw [appendIntGo_four h]
  simp only [List.cons_append, List.nil_append, getYear4, dchar_isDigit h1, dchar_isDigit h2,
    dchar_isDigit h3, dchar_isDigit h4, Bool.and_self, if_true, charVal_dchar h1,
    charVal_dchar h2, charVal_dchar h3, charVal_dchar h4]
  congr 1
  congr 1
  omega

theorem isDigit_charVal_lt {c : Char} (h : isDigitCh c = true) : charVal c < 10 := by
  simp only [isDigitCh, Bool.and_eq_true, decide_eq_true_eq] at h
  simp only [charVal]
  omega

theorem getColonTZ_tz {off : Int} (h : off.natAbs < 1500) :
    getColonTZ (tzChars off) = some (off, []) := by
  have hhlt : off.natAbs / 60 < 100 := by omega
  have hmlt : off.natAbs % 60 < 100 := by omega
  have b1 : off.natAbs / 60 / 10 < 10 := by omega
  have b2 : off.natAbs / 60 % 10 < 10 := by omega
  have b3 : off.natAbs % 60 / 10 < 10 := by omega
  have b4 : off.natAbs % 60 % 10 < 10 := by omega
  unfold tzChars
  rw [appendIntGo_two hhlt, appendIntGo_two hmlt]
  by_cases hneg : off < 0
  · rw [if_pos hneg]
    simp only [List.cons_append, List.nil_append, getColonTZ, dchar_isDigit b1,
      dchar_isDigit b2, dchar_isDigit b3, dchar_isDigit b4, Bool.and_self, if_true,
      charVal_dchar b1, charVal_dchar b2, charVal_dchar b3, charVal_dchar b4]
    rw [if_neg (by omega : ¬(off.natAbs / 60 / 10 * 10 + off.natAbs / 60 % 10 > 24 ∨
      off.natAbs % 60 / 10 * 10 + off.natAbs % 60 % 10 > 60))]
    rw [if_neg (by decide : ¬('-' : Char) = '+')]
    congr 1
    congr 1
    omega
  · rw [if_neg hneg]
    simp only [List.cons_append, List.nil_append, getColonTZ, dchar_isDigit b1,
      dchar_isDigit b2, dchar_isDigit b3, dchar_isDigit b4, Bool.and_self, if_true,
      charVal_dchar b1, charVal_dchar b2, charVal_dchar b3, charVal_dchar b4]
    rw [if_neg (by omega : ¬(off.natAbs / 60 / 10 * 10 + off.natAbs / 60 % 10 > 24 ∨
      off.natAbs % 60 / 10 * 10 + off.natAbs % 60 % 10 > 60))]
    congr 1
    congr 1
    omega

/-! ## Bounds extracted from a successful source parse -/

theorem getnum2_lt {cs : List Char} {n : Nat} {rest : List Char}
    (h : getnum2 cs = some (n, rest)) : n < 100 := by
  match cs with
  | [] => simp [getnum2] at h
  | [c0] => simp [getnum2] at h
  | c0 :: c1 :: tl =>
    simp only [getnum2] at h
    split at h
    · rename_i hdig
      simp only [Bool.and_eq_true] at hdig
      have v0 := isDigit_charVal_lt hdig.1
      have v1 := isDigit_charVal_lt hdig.2
      injection h with h'
      injection h' with h1 h2
      omega
    · exact Option.noConfusion h

theorem getnum12_lt {cs : List Char} {n : Nat} {rest : List Char}
    (h : getnum12 cs = some (n, rest)) : n < 100 := by
  match cs with
  | [] => simp [getnum12] at h
  | [c0] =>
    simp only [getnum12] at h
    split at h
    · rename_i hdig
      have v0 := isDigit_charVal_lt hdig
      injection h with h'
      injection h' with h1 h2
      omega
    · exact Option.noConfusion h
  | c0 :: c1 :: tl =>
    simp only [getnum12] at h
    split at h
    · rename_i hdig0
      have v0 := isDigit_charVal_lt hdig0
      split at h
      · rename_i hdig1
        have v1 := isDigit_charVal_lt hdig1
        injection h with h'
        injection h' with h1 h2
        omega
      · injection h with h'
        injection h' with h1 h2
        omega
    · exact Option.noConfusion h

theorem getYear4_lt {cs : List Char} {n : Nat} {rest : List Char}
    (h : getYear4 cs = some (n, rest)) : n < 10000 := by
  match cs with
  | [] => simp [getYear4] at h
  | [a] => simp [getYear4] at h
  | [a, b] => simp [getYear4] at h
  | [a, b, c] => simp [getYear4] at h
  | a :: b :: c :: d :: tl =>
    simp only [getYear4] at h
    split at h
    · rename_i hdig
      simp only [Bool.and_eq_true] at hdig
      have v0 := isDigit_charVal_lt hdig.1.1.1
      have v1 := isDigit_charVal_lt hdig.1.1.2
      have v2 := isDigit_charVal_lt hdig.1.2
      have v3 := isDigit_charVal_lt hdig.2
      injection h with h'
      injection h' with h1 h2
      omega
    · exact Option.noConfusion h

theorem lookupMonthAux_bound :
    ∀ (names : List (List Char)) (i : Nat) (cs : List Char) (m : Nat) (rest : List Char),
      lookupMonthAux i names cs = some (m, rest) → i ≤ m ∧ m < i + names.length := by
  intro names
  induction names with
  | nil => intro i cs m rest h; simp [lookupMonthAux] at h
  | cons a tl ih =>
    intro i cs m rest h
    simp only [lookupMonthAux] at h
    split at h
    · injection h with h'
      injection h' with h1 h2
      simp only [List.length_cons]
      omega
    · have := ih (i + 1) cs m rest h
      simp only [List.length_cons]
      omega

theorem lookupMonth_range {cs : List Char} {m : Nat} {rest : List Char}
    (h : lookupMonth cs = some (m, rest)) : 1 ≤ m ∧ m ≤ 12 := by
  have := lookupMonthAux_bound shortMonthNames 1 cs m rest h
  simp only [shortMonthNames, List.length_cons, List.length_nil] at this
  omega

theorem getNumTZ_bound {cs : List Char} {off : Int} {rest : List Char}
    (h : getNumTZ cs = some (off, rest)) : off.natAbs ≤ 1500 := by
  match cs with
  | [] => simp [getNumTZ] at h
  | [a] => simp [getNumTZ] at h
  | [a, b] => simp [getNumTZ] at h
  | [a, b, c] => simp [getNumTZ] at h
  | [a, b, c, d] => simp [getNumTZ] at h
  | s :: h1 :: h2 :: m1 :: m2 :: tl =>
    simp only [getNumTZ] at h
    split at h
    · split at h
      · exact Option.noConfusion h
      · rename_i hrange
        push_neg at hrange
        split at h
        · injection h with h'
          injection h' with hv hr
          omega
        · split at h
          · injection h with h'
            injection h' with hv hr
            omega
          · exact Option.noConfusion h
    · exact Option.noConfusion h

/-- Every field produced by a successful source-layout parse is in range:
this is what Go's `Parse` guarantees for the layout `"02 Jan 2006 15:04 -0700"`
(four-digit year, table month, validated day, hour, minute, zero seconds, and
a zone offset of at most 24 hours 60 minutes in magnitude). -/
theorem parseSource_ranges {cs : List Char} {dt : DateTime}
    (h : parseSource cs = some dt) :
    dt.year < 10000 ∧ 1 ≤ dt.month ∧ dt.month ≤ 12 ∧ 1 ≤ dt.day ∧
      dt.day ≤ daysIn dt.month dt.year ∧ dt.hour < 24 ∧ dt.minute < 60 ∧
      dt.second = 0 ∧ dt.offMin.natAbs ≤ 1500 := by
  unfold parseSource at h
  cases e1 : getnum2 cs with
  | none => simp only [e1] at h; exact Option.noConfusion h
  | some p1 =>
  obtain ⟨day, cs1⟩ := p1
  simp only [e1] at h
  cases e2 : skipSpace cs1 with
  | none => simp only [e2] at h; exact Option.noConfusion h
  | some cs2 =>
  simp only [e2] at h
  cases e3 : lookupMonth cs2 with
  | none => simp only [e3] at h; exact Option.noConfusion h
  | some p3 =>
  obtain ⟨month, cs3⟩ := p3
  simp only [e3] at h
  cases e4 : skipSpace cs3 with
  | none => simp only [e4] at h; exact Option.noConfusion h
  | some cs4 =>
  simp only [e4] at h
  cases e5 : getYear4 cs4 with
  | none => simp only [e5] at h; exact Option.noConfusion h
  | some p5 =>
  obtain ⟨year, cs5⟩ := p5
  simp only [e5] at h
  cases e6 : skipSpace cs5 with
  | none => simp only [e6] at h; exact Option.noConfusion h
  | some cs6 =>
  simp only [e6] at h
  cases e7 : getnum12 cs6 with
  | none => simp only [e7] at h; exact Option.noConfusion h
  | some p7 =>
  obtain ⟨hour, cs7⟩ := p7
  simp only [e7] at h
  cases e8 : expectChar ':' cs7 with
  | none => simp only [e8] at h; exact Option.noConfusion h
  | some cs8 =>
  simp only [e8] at h
  cases e9 : getnum2 cs8 with
  | none => simp only [e9] at h; exact Option.noConfusion h
  | some p9 =>
  obtain ⟨minute, cs9⟩ := p9
  simp only [e9] at h
  cases e10 : skipSpace cs9 with
  | none => simp only [e10] at h; exact Option.noConfusion h
  | some cs10 =>
  simp only [e10] at h
  cases e11 : getNumTZ cs10 with
  | none => simp only [e11] at h; exact Option.noConfusion h
  | some p11 =>
  obtain ⟨off, cs11⟩ := p11
  simp only [e11] at h
  cases cs11 with
  | cons c tl => exact Option.noConfusion h
  | nil =>
  have h2 : (if validRanges ⟨year, month, day, hour, minute, 0, off⟩ = true then
      some (⟨year, month, day, hour, minute, 0, off⟩ : DateTime) else none) = some dt := h
  clear h
  rename' h2 => h
  by_cases hv : validRanges ⟨year, month, day, hour, minute, 0, off⟩ = true
  · rw [if_pos hv] at h
    injection h with h'
    subst h'
    simp only [validRanges, Bool.and_eq_true, decide_eq_true_eq] at hv
    have hy := getYear4_lt e5
    have hmo := lookupMonth_range e3
    have hoff := getNumTZ_bound e11
    exact ⟨hy, hmo.1, hmo.2, hv.1.2, hv.2, hv.1.1.1.1, hv.1.1.1.2, rfl, hoff⟩
  · rw [if_neg hv] at h
    exact Option.noConfusion h

/-- Formatting under the target layout and parsing the result back under the
target layout recovers the components exactly, whenever they are in the
ranges the source parse guarantees and the offset prints as a two-digit
hour, i.e. its magnitude is under 25 hours. -/
theorem parseTarget_format (dt : DateTime)
    (hy : dt.year < 10000) (hmo1 : 1 ≤ dt.month) (hmo2 : dt.month ≤ 12)
    (hd1 : 1 ≤ dt.day) (hd2 : dt.day ≤ daysIn dt.month dt.year)
    (hh : dt.hour < 24) (hmi : dt.minute < 60) (hs : dt.second < 60)
    (hoff : dt.offMin.natAbs < 1500) :
    parseTarget (formatTarget dt) = some dt := by
  obtain ⟨y, mo, d, hr, mi, s, off⟩ := dt
  simp only at hy hmo1 hmo2 hd1 hd2 hh hmi hs hoff
  have hdle : d < 100 := by
    have : daysIn mo y ≤ 31 := by
      unfold daysIn
      split
      · split <;> omega
      · split <;> omega
    omega
  unfold formatTarget parseTarget
  simp only [getYear4_append hy, expectChar_cons,
    getnum2_append (show mo < 100 by omega), getnum2_append hdle,
    getnum12_append (show hr < 100 by omega),
    getnum2_append (show mi < 100 by omega),
    getnum2_append (show s < 100 by omega), getColonTZ_tz hoff]
  rw [if_neg (show ¬(mo = 0 ∨ 12 < mo) by omega)]
  rw [if_pos (show validRanges ⟨y, mo, d, hr, mi, s, off⟩ = true by
    simp only [validRanges, Bool.and_eq_true, decide_eq_true_eq]
    exact ⟨⟨⟨⟨hh, hmi⟩, hs⟩, hd1⟩, hd2⟩)]

/-! ## A target-format string never re-parses under the source layout -/

theorem natToChars_mem_digit {n : Nat} :
    ∀ c ∈ natToChars n, 48 ≤ c.toNat ∧ c.toNat ≤ 57 := by
  induction n using Nat.strong_induction_on with
  | _ n ih =>
    intro c hc
    by_cases h10 : n < 10
    · rw [natToChars_lt10 h10] at hc
      rw [List.mem_singleton.mp hc]
      exact dchar_toNat h10
    · rw [natToChars_ge10 (Nat.le_of_not_lt h10)] at hc
      rcases List.mem_append.mp hc with hc | hc
      · exact ih (n / 10) (Nat.div_lt_self (by omega) (by omega)) c hc
      · rw [List.mem_singleton.mp hc]
        exact dchar_toNat (by omega)

theorem appendIntGo_mem {w n : Nat} :
    ∀ c ∈ appendIntGo w n, 48 ≤ c.toNat ∧ c.toNat ≤ 57 := by
  intro c hc
  unfold appendIntGo at hc
  rcases List.mem_append.mp hc with hc | hc
  · have := List.eq_of_mem_replicate hc
    subst this
    decide
  · exact natToChars_mem_digit c hc

theorem appendIntGo_length (w n : Nat) : w ≤ (appendIntGo w n).length := by
  unfold appendIntGo
  rw [List.length_append, List.length_replicate]
  omega

/-- Any string printed by the target layout starts with at least four digit
characters, so re-parsing it under the source layout dies where the source
layout demands a space after the two-digit day: the third character is a
digit. This is the non-idempotence boundary of the transformer. -/
theorem parseSource_format_none (dt : DateTime) :
    parseSource (formatTarget dt) = none := by
  have hlen : 3 ≤ (appendIntGo 4 dt.year).length :=
    le_trans (by omega) (appendIntGo_length 4 dt.year)
  rcases hch : appendIntGo 4 dt.year with _ | ⟨p0, _ | ⟨p1, _ | ⟨p2, tl⟩⟩⟩
  · rw [hch] at hlen; simp at hlen
  · rw [hch] at hlen; simp at hlen
  · rw [hch] at hlen; simp at hlen
  · have hp2d : 48 ≤ p2.toNat ∧ p2.toNat ≤ 57 := by
      apply appendIntGo_mem p2
      rw [hch]
      simp
    have hp2 : ¬p2 = ' ' := by
      intro hEq
      rw [hEq] at hp2d
      revert hp2d
      decide
    unfold formatTarget
    rw [hch]
    simp only [List.cons_append]
    unfold parseSource
    by_cases hdig : (isDigitCh p0 && isDigitCh p1) = true
    · simp only [getnum2, hdig, if_true, skipSpace, if_neg hp2]
    · simp only [getnum2, hdig, if_false, Bool.false_eq_true]

/-! ## The transform loop: frame, order, and failure propagation -/

theorem transformItemD_link (it : Item) : (transformItemD it).link = it.link := by
  unfold transformItemD
  cases parseSource it.pubDate.toList <;> rfl

theorem transformItemD_description (it : Item) :
    (transformItemD it).description = it.description := by
  unfold transformItemD
  cases parseSource it.pubDate.toList <;> rfl

theorem transformItemD_guid (it : Item) : (transformItemD it).guid = it.guid := by
  unfold transformItemD
  cases parseSource it.pubDate.toList <;> rfl

theorem transformItem_ok {it it' : Item} (h : transformItem it = .ok it') :
    it' = transformItemD it := by
  unfold transformItem at h
  unfold transformItemD
  cases e : parseSource it.pubDate.toList with
  | none => simp only [e] at h; exact Except.noConfusion h
  | some dt =>
    simp only [e] at h
    injection h with h'
    exact h'.symm

theorem transformItems_ok_map {its its' : List Item}
    (h : transformItems its = .ok its') : its' = its.map transformItemD := by
  induction its generalizing its' with
  | nil =>
    unfold transformItems at h
    injection h with h'
    simp [h'.symm]
  | cons a tl ih =>
    unfold transformItems at h
    cases e1 : transformItem a with
    | error e => simp only [e1] at h; exact Except.noConfusion h
    | ok a' =>
      simp only [e1] at h
      cases e2 : transformItems tl with
      | error e => simp only [e2] at h; exact Except.noConfusion h
      | ok tl' =>
        simp only [e2] at h
        injection h with h'
        rw [List.map_cons, ← h', ih e2, transformItem_ok e1]

theorem transformItems_error_of_mem {its : List Item} {it : Item} (hmem : it ∈ its)
    (hbad : parseSource it.pubDate.toList = none) :
    ∃ s, transformItems its = .error ("Failed to parse the pubDate field: " ++ s) := by
  induction its with
  | nil => cases hmem
  | cons a tl ih =>
    cases e1 : transformItem a with
    | error e =>
      refine ⟨a.pubDate, ?_⟩
      have e1' : transformItem a = .error ("Failed to parse the pubDate field: " ++ a.pubDate) := by
        unfold transformItem at e1 ⊢
        cases ep : parseSource a.pubDate.toList with
        | none => simp only [ep]
        | some dt => simp only [ep] at e1; exact Except.noConfusion e1
      simp only [transformItems, e1']
    | ok a' =>
      have hne : it ≠ a := by
        intro hEq
        subst hEq
        unfold transformItem at e1
        simp only [hbad] at e1
        exact Except.noConfusion e1
      have hmem' : it ∈ tl := by
        rcases List.mem_cons.mp hmem with h | h
        · exact absurd h hne
        · exact h
      obtain ⟨s, hs⟩ := ih hmem'
      exact ⟨s, by simp only [transformItems, e1, hs]⟩

theorem transformFeed_ok {r r' : Rss} (h : transformFeed r = .ok r') :
    r' = { r with channel := { r.channel with items := r.channel.items.map transformItemD } } := by
  unfold transformFeed at h
  cases e : transformItems r.channel.items with
  | error e' => simp only [e] at h; exact Except.noConfusion h
  | ok its =>
    simp only [e] at h
    injection h with h'
    rw [← h', transformItems_ok_map e]

/-! ## Tree-codec lemmas: decoding an encoded feed is the identity -/

theorem decodeItem_encode (it : Item) :
    decodeItemInto emptyItem
      [.elem "link" [] [.text it.link], .elem "description" [] [.text it.description],
       .elem "pubDate" [] [.text it.pubDate],
       .elem "guid" [("isPermaLink", it.guid.isPermaLink)] [.text it.guid.value]] = it := by
  obtain ⟨l, d, p, ⟨ip, v⟩⟩ := it
  rfl

theorem decodeChannelInto_item_step (ch : Channel) (children rest : List Node) :
    decodeChannelInto ch (.elem "item" [] children :: rest) =
      decodeChannelInto { ch with items := ch.items ++ [decodeItemInto emptyItem children] }
        rest := rfl

theorem decodeChannelInto_items (ch : Channel) (its : List Item) :
    decodeChannelInto ch (its.map encodeItem) = { ch with items := ch.items ++ its } := by
  induction its generalizing ch with
  | nil =>
    obtain ⟨cd, cl, ct, cits⟩ := ch
    simp [decodeChannelInto]
  | cons a tl ih =>
    simp only [List.map_cons, encodeItem, decodeChannelInto_item_step, decodeItem_encode, ih]
    simp

theorem decode_encode_id (r : Rss) : decodeRss (encodeRss r) = some r := by
  obtain ⟨v, ⟨cd, cl, ct, its⟩⟩ := r
  have h1 : decodeRss (encodeRss ⟨v, ⟨cd, cl, ct, its⟩⟩) =
      some ⟨v, decodeChannelInto ⟨cd, cl, ct, []⟩ (its.map encodeItem)⟩ := rfl
  rw [h1, decodeChannelInto_items]
  simp

/-! ## Reducing `runMain` past a successful fetch and decode -/

theorem runMain_decoded {env : Env} {net : String → Except String HttpResp} {createOk : Bool}
    {u p : String} {resp : HttpResp} {t : Node} {r : Rss}
    (hu : env.url = some u) (hp : env.path = some p) (hn : net u = .ok resp)
    (hs : resp.status = 200) (hb : resp.body = some t) (hd : decodeRss t = some r) :
    runMain env net createOk =
      match transformFeed r with
      | .error e => ⟨false, some e, true, none⟩
      | .ok r' =>
        if createOk then ⟨true, none, true, some (encodeRss r')⟩
        else ⟨false, some "Failed to create the file.", true, none⟩ := by
  obtain ⟨ou, op⟩ := env
  simp only at hu hp
  subst hu
  subst hp
  obtain ⟨st, body⟩ := resp
  simp only at hs hb
  subst hs
  subst hb
  unfold runMain
  simp only [hn]
  rw [if_neg (by omega : ¬(200 : Nat) ≠ 200)]
  simp only [hd]

/-- Helper for the empty-pubDate analysis: nothing in the item decode sets the
pubDate field to anything but the text content of a `pubDate` child. -/
theorem decodeItemInto_pubDate_empty (children : List Node) :
    ∀ it : Item, it.pubDate = "" →
      (∀ a c, Node.elem "pubDate" a c ∈ children → textContent c = "") →
      (decodeItemInto it children).pubDate = "" := by
  induction children with
  | nil => intro it h _; exact h
  | cons n rest ih =>
    intro it h hnp
    have hnp' : ∀ a c, Node.elem "pubDate" a c ∈ rest → textContent c = "" :=
      fun a c hm => hnp a c (List.mem_cons_of_mem _ hm)
    cases n with
    | text s => exact ih it h hnp'
    | elem name attrs ch =>
      by_cases h1 : name = "link"
      · subst h1
        show (decodeItemInto { it with link := textContent ch } rest).pubDate = ""
        exact ih _ h hnp'
      · by_cases h2 : name = "description"
        · subst h2
          show (decodeItemInto { it with description := textContent ch } rest).pubDate = ""
          exact ih _ h hnp'
        · by_cases h3 : name = "pubDate"
          · subst h3
            have hc : textContent ch = "" := hnp attrs ch (List.mem_cons_self _ _)
            show (decodeItemInto { it with pubDate := textContent ch } rest).pubDate = ""
            exact ih _ (by simp [hc]) hnp'
          · by_cases h4 : name = "guid"
            · subst h4
              show (decodeItemInto
                { it with guid := decodeGuidInto it.guid (.elem "guid" attrs ch) }
                  rest).pubDate = ""
              exact ih _ h hnp'
            · have hstep : decodeItemInto it (Node.elem name attrs ch :: rest) =
                  decodeItemInto it rest := by
                conv_lhs => rw [decodeItemInto]
                rw [if_neg h1, if_neg h2, if_neg h3, if_neg h4]
              rw [hstep]
              exact ih it h hnp'

/-! ## The claims -/

/-- Claim C1, counterexample: the claim quantifies over every Item whose
pubDate parses under the source layout, but the pubDate
`02 Jan 2025 09:15 +2460` parses (Go accepts zone offsets up to 24 hours
60 minutes), is rewritten to `2025-01-02T09:15:00+25:00`, and that string
does not parse back under the target layout (zone hour 25 is out of range),
so no instant is denoted at all. -/
theorem c1_counterexample :
    transformPubDate "02 Jan 2025 09:15 +2460" = some "2025-01-02T09:15:00+25:00" ∧
      parseTarget (String.toList "2025-01-02T09:15:00+25:00") = none := by
  constructor
  · rfl
  · rfl

/-- Claim C1, amended: for every Item whose pubDate parses under the fixed
source layout with a zone offset of magnitude less than 1500 minutes
(25 hours), the transformer rewrites pubDate to a target-layout string that,
parsed back under the target layout, denotes the identical instant with a
seconds component of exactly 00. -/
theorem c1_roundtrip_amended (s : String) (dt : DateTime)
    (h : parseSource s.toList = some dt) (hoff : dt.offMin.natAbs < 1500) :
    ∃ out dt', transformPubDate s = some out ∧ parseTarget out.toList = some dt' ∧
      toInstant dt' = toInstant dt ∧ dt'.second = 0 := by
  obtain ⟨hy, hm1, hm2, hd1, hd2, hh, hmi, hsec, _⟩ := parseSource_ranges h
  refine ⟨String.mk (formatTarget dt), dt, ?_, ?_, rfl, hsec⟩
  · unfold transformPubDate
    rw [h]
    rfl
  · have hlist : (String.mk (formatTarget dt)).toList = formatTarget dt := rfl
    rw [hlist]
    exact parseTarget_format dt hy hm1 hm2 hd1 hd2 hh hmi (by omega) hoff

/-- Witness for C1 at the spec's own example input. -/
theorem c1_roundtrip_amended_witness :
    parseSource (String.toList "02 Jan 2025 09:15 +0000") =
        some ⟨2025, 1, 2, 9, 15, 0, 0⟩ ∧
      (⟨2025, 1, 2, 9, 15, 0, 0⟩ : DateTime).offMin.natAbs < 1500 ∧
      ∃ out dt', transformPubDate "02 Jan 2025 09:15 +0000" = some out ∧
        parseTarget out.toList = some dt' ∧
        toInstant dt' = toInstant ⟨2025, 1, 2, 9, 15, 0, 0⟩ ∧ dt'.second = 0 :=
  ⟨by decide, by decide,
    c1_roundtrip_amended "02 Jan 2025 09:15 +0000" ⟨2025, 1, 2, 9, 15, 0, 0⟩
      (by decide) (by decide)⟩

/-- Claim C2: on the success path of the transform loop, every field other
than pubDate is unchanged between the decoded input feed and the feed that
is encoded: the version attribute, the channel's title, description and
link, and every item's link, description and guid (value and isPermaLink
attribute alike). The loop is the only mutation in the pipeline. -/
theorem c2_frame (r r' : Rss) (h : transformFeed r = .ok r') :
    r'.version = r.version ∧
    r'.channel.title = r.channel.title ∧
    r'.channel.description = r.channel.description ∧
    r'.channel.link = r.channel.link ∧
    r'.channel.items.length = r.channel.items.length ∧
    ∀ (i : Nat) (hi' : i < r'.channel.items.length) (hi : i < r.channel.items.length),
      (r'.channel.items.get ⟨i, hi'⟩).link = (r.channel.items.get ⟨i, hi⟩).link ∧
      (r'.channel.items.get ⟨i, hi'⟩).description =
        (r.channel.items.get ⟨i, hi⟩).description ∧
      (r'.channel.items.get ⟨i, hi'⟩).guid = (r.channel.items.get ⟨i, hi⟩).guid := by
  have hr := transformFeed_ok h
  subst hr
  refine ⟨rfl, rfl, rfl, rfl, by simp, ?_⟩
  intro i hi' hi
  simp only [List.get_eq_getElem, List.getElem_map]
  exact ⟨transformItemD_link _, transformItemD_description _, transformItemD_guid _⟩

/-- Witness for C2 on a one-item feed. -/
theorem c2_frame_witness :
    sampleFeedOut.version = sampleFeed.version ∧
    sampleFeedOut.channel.title = sampleFeed.channel.title ∧
    sampleFeedOut.channel.description = sampleFeed.channel.description ∧
    sampleFeedOut.channel.link = sampleFeed.channel.link ∧
    sampleFeedOut.channel.items.length = sampleFeed.channel.items.length ∧
    ∀ (i : Nat) (hi' : i < sampleFeedOut.channel.items.length)
      (hi : i < sampleFeed.channel.items.length),
      (sampleFeedOut.channel.items.get ⟨i, hi'⟩).link =
        (sampleFeed.channel.items.get ⟨i, hi⟩).link ∧
      (sampleFeedOut.channel.items.get ⟨i, hi'⟩).description =
        (sampleFeed.channel.items.get ⟨i, hi⟩).description ∧
      (sampleFeedOut.channel.items.get ⟨i, hi'⟩).guid =
        (sampleFeed.channel.items.get ⟨i, hi⟩).guid :=
  c2_frame sampleFeed sampleFeedOut (by rfl)

/-- Claim C3: on the success path of the transform loop, the output item
list has the same length as the input list and is exactly the positional
image of the input items under the per-item rewrite: no item is added,
removed or reordered. -/
theorem c3_order (r r' : Rss) (h : transformFeed r = .ok r') :
    r'.channel.items.length = r.channel.items.length ∧
    r'.channel.items = r.channel.items.map transformItemD := by
  have hr := transformFeed_ok h
  subst hr
  exact ⟨by simp, rfl⟩

/-- Witness for C3 on a one-item feed. -/
theorem c3_order_witness :
    sampleFeedOut.channel.items.length = sampleFeed.channel.items.length ∧
    sampleFeedOut.channel.items = sampleFeed.channel.items.map transformItemD :=
  c3_order sampleFeed sampleFeedOut (by rfl)

/-- Claim C4: when the fetch and decode succeed but some item's pubDate does
not parse under the source layout, the run ends with a fatal log message
naming the parse failure, a non-zero exit, and no file created or modified
at the destination: `os.Create` is only reached after the whole loop. -/
theorem c4_fatal_no_output (env : Env) (net : String → Except String HttpResp)
    (createOk : Bool) (u p : String) (resp : HttpResp) (t : Node) (r : Rss) (it : Item)
    (hu : env.url = some u) (hp : env.path = some p) (hn : net u = .ok resp)
    (hs : resp.status = 200) (hb : resp.body = some t) (hd : decodeRss t = some r)
    (hmem : it ∈ r.channel.items) (hbad : parseSource it.pubDate.toList = none) :
    (runMain env net createOk).exitOk = false ∧
    (runMain env net createOk).fileWritten = none ∧
    ∃ s, (runMain env net createOk).logMsg =
      some ("Failed to parse the pubDate field: " ++ s) := by
  obtain ⟨s', hs'⟩ := transformItems_error_of_mem hmem hbad
  have htr : transformFeed r = .error ("Failed to parse the pubDate field: " ++ s') := by
    unfold transformFeed
    rw [hs']
  rw [runMain_decoded hu hp hn hs hb hd, htr]
  exact ⟨rfl, rfl, ⟨s', rfl⟩⟩

/-- Witness for C4 on a concrete feed whose single item has pubDate `oops`. -/
theorem c4_fatal_no_output_witness :
    (runMain ⟨some "https://bsky.example/rss", some "/tmp/out.xml"⟩
        (fun _ => .ok ⟨200, some (encodeRss badFeed)⟩) true).exitOk = false ∧
    (runMain ⟨some "https://bsky.example/rss", some "/tmp/out.xml"⟩
        (fun _ => .ok ⟨200, some (encodeRss badFeed)⟩) true).fileWritten = none ∧
    ∃ s, (runMain ⟨some "https://bsky.example/rss", some "/tmp/out.xml"⟩
        (fun _ => .ok ⟨200, some (encodeRss badFeed)⟩) true).logMsg =
      some ("Failed to parse the pubDate field: " ++ s) :=
  c4_fatal_no_output _ _ true "https://bsky.example/rss" "/tmp/out.xml"
    ⟨200, some (encodeRss badFeed)⟩ (encodeRss badFeed) badFeed badItem
    rfl rfl rfl rfl rfl (decode_encode_id badFeed) (by decide) (by rfl)

/-- Claim C5: the spec's two concrete scenarios, verified by evaluation of
the embedded transformer. -/
theorem c5_concrete :
    transformPubDate "02 Jan 2025 09:15 +0000" = some "2025-01-02T09:15:00+00:00" ∧
    transformPubDate "15 Aug 2024 23:59 -0500" = some "2024-08-15T23:59:00-05:00" := by
  constructor
  · rfl
  · rfl

/-- Claim C6: encoding a decoded feed and decoding again is the identity on
the structured feed (hence equal on all fields, in particular all fields
other than pubDate), and the re-encoded root element is named `rss` and
carries the same `version` attribute as decoded. -/
theorem c6_roundtrip (t : Node) (r : Rss) (_h : decodeRss t = some r) :
    decodeRss (encodeRss r) = some r ∧
    ∃ ch, encodeRss r = Node.elem "rss" [("version", r.version)] ch :=
  ⟨decode_encode_id r, ⟨_, rfl⟩⟩

/-- Witness for C6 on a minimal concrete document. -/
theorem c6_roundtrip_witness :
    decodeRss (encodeRss ⟨"2.0", ⟨"", "", "", []⟩⟩) = some ⟨"2.0", ⟨"", "", "", []⟩⟩ ∧
    ∃ ch, encodeRss ⟨"2.0", ⟨"", "", "", []⟩⟩ =
      Node.elem "rss" [("version", (⟨"2.0", ⟨"", "", "", []⟩⟩ : Rss).version)] ch :=
  c6_roundtrip (Node.elem "rss" [("version", "2.0")] []) ⟨"2.0", ⟨"", "", "", []⟩⟩ (by rfl)

/-- Claim C7: the transformer is not idempotent on its own output — any
string it produces fails to parse under the source layout, so a second
application is the fatal-error path, never a no-op. -/
theorem c7_not_idempotent (s out : String) (h : transformPubDate s = some out) :
    parseSource out.toList = none ∧ transformPubDate out = none := by
  unfold transformPubDate at h
  cases e : parseSource s.toList with
  | none => rw [e] at h; simp at h
  | some dt =>
    rw [e] at h
    simp only [Option.map_some'] at h
    injection h with h2
    subst h2
    have hlist : (String.mk (formatTarget dt)).toList = formatTarget dt := rfl
    constructor
    · rw [hlist]
      exact parseSource_format_none dt
    · unfold transformPubDate
      rw [hlist, parseSource_format_none dt]
      rfl

/-- Witness for C7: the transformed form of the spec's first example fails
to re-parse. -/
theorem c7_not_idempotent_witness :
    transformPubDate "02 Jan 2025 09:15 +0000" = some "2025-01-02T09:15:00+00:00" ∧
    parseSource (String.toList "2025-01-02T09:15:00+00:00") = none ∧
    transformPubDate "2025-01-02T09:15:00+00:00" = none :=
  ⟨by rfl, c7_not_idempotent "02 Jan 2025 09:15 +0000" "2025-01-02T09:15:00+00:00" (by rfl)⟩

/-- Claim C8: a fetch that returns any status other than 200 ends the run
with a fatal message reporting the received status code, a non-zero exit,
and no file written — the status check precedes decode, transform and
`os.Create`. -/
theorem c8_non200 (env : Env) (net : String → Except String HttpResp) (createOk : Bool)
    (u p : String) (resp : HttpResp)
    (hu : env.url = some u) (hp : env.path = some p)
    (hn : net u = .ok resp) (hs : resp.status ≠ 200) :
    runMain env net createOk =
      ⟨false, some ("Failed to download RSS feed. Status code: " ++ toString resp.status),
        true, none⟩ := by
  obtain ⟨ou, op⟩ := env
  simp only at hu hp
  subst hu
  subst hp
  unfold runMain
  simp only [hn]
  rw [if_pos hs]

/-- Witness for C8 with a 404 response. -/
theorem c8_non200_witness :
    runMain ⟨some "https://bsky.example/rss", some "/tmp/out.xml"⟩
        (fun _ => .ok ⟨404, none⟩) true =
      ⟨false, some ("Failed to download RSS feed. Status code: " ++ toString (404 : Nat)),
        true, none⟩ :=
  c8_non200 _ _ true "https://bsky.example/rss" "/tmp/out.xml" ⟨404, none⟩
    rfl rfl rfl (by decide)

/-- Claim C9: a missing `INPUT_URL` ends the run before any network call and
before any file is created, with a diagnostic and non-zero exit; a missing
`INPUT_PATH` likewise ends the run before the network call, since both
environment reads precede the GET. -/
theorem c9_missing_env (env : Env) (net : String → Except String HttpResp)
    (createOk : Bool) (h : env.url = none ∨ env.path = none) :
    (runMain env net createOk).exitOk = false ∧
    (runMain env net createOk).networkCalled = false ∧
    (runMain env net createOk).fileWritten = none ∧
    (runMain env net createOk).logMsg.isSome = true := by
  obtain ⟨ou, op⟩ := env
  simp only at h
  rcases h with h | h
  · subst h
    exact ⟨rfl, rfl, rfl, rfl⟩
  · subst h
    cases ou with
    | none => exact ⟨rfl, rfl, rfl, rfl⟩
    | some u => exact ⟨rfl, rfl, rfl, rfl⟩

/-- Witness for C9 with both variables exercised. -/
theorem c9_missing_env_witness :
    ((runMain ⟨none, some "/tmp/out.xml"⟩ (fun _ => .error "unreached") true).exitOk = false ∧
      (runMain ⟨none, some "/tmp/out.xml"⟩
          (fun _ => .error "unreached") true).networkCalled = false ∧
      (runMain ⟨none, some "/tmp/out.xml"⟩ (fun _ => .error "unreached") true).fileWritten =
        none ∧
      (runMain ⟨none, some "/tmp/out.xml"⟩
          (fun _ => .error "unreached") true).logMsg.isSome = true) ∧
    ((runMain ⟨some "https://bsky.example/rss", none⟩
          (fun _ => .error "unreached") true).exitOk = false ∧
      (runMain ⟨some "https://bsky.example/rss", none⟩
          (fun _ => .error "unreached") true).networkCalled = false ∧
      (runMain ⟨some "https://bsky.example/rss", none⟩
          (fun _ => .error "unreached") true).fileWritten = none ∧
      (runMain ⟨some "https://bsky.example/rss", none⟩
          (fun _ => .error "unreached") true).logMsg.isSome = true) :=
  ⟨c9_missing_env ⟨none, some "/tmp/out.xml"⟩ _ true (Or.inl rfl),
    c9_missing_env ⟨some "https://bsky.example/rss", none⟩ _ true (Or.inr rfl)⟩

/-- Claim C10: an item element with no pubDate child, or an empty one,
decodes to the empty string in the pubDate field; the empty string does not
parse under the source layout, so the transform loop turns any feed
containing such an item into the fatal date-parse error; only the empty
item list passes through the loop untouched. -/
theorem c10_empty_pubdate (children : List Node)
    (hnp : ∀ a c, Node.elem "pubDate" a c ∈ children → textContent c = "") :
    (decodeItemInto emptyItem children).pubDate = "" ∧
    parseSource (String.toList "") = none ∧
    (∀ (items : List Item) (it : Item), it ∈ items → it.pubDate = "" →
      ∃ s, transformItems items = .error ("Failed to parse the pubDate field: " ++ s)) ∧
    transformItems [] = .ok [] := by
  refine ⟨decodeItemInto_pubDate_empty children emptyItem rfl hnp, rfl, ?_, rfl⟩
  intro items it hm hpd
  apply transformItems_error_of_mem hm
  rw [hpd]
  rfl

/-- Witness for C10 with an explicit empty pubDate element. -/
theorem c10_empty_pubdate_witness :
    (decodeItemInto emptyItem [Node.elem "pubDate" [] []]).pubDate = "" ∧
    parseSource (String.toList "") = none ∧
    (∀ (items : List Item) (it : Item), it ∈ items → it.pubDate = "" →
      ∃ s, transformItems items = .error ("Failed to parse the pubDate field: " ++ s)) ∧
    transformItems [] = .ok [] :=
  c10_empty_pubdate [Node.elem "pubDate" [] []]
    (by
      intro a c hm
      have h' := List.mem_singleton.mp hm
      injection h' with h1 h2 h3
      subst h3
      rfl)

end BlueskyRss
